import Mathlib

/-!
Shallow embedding of the smallweb request dispatch engine, translated from
the Go sources: entrypoint resolution, environment composition, the
request/response codec, the tail of the evaluator invocation, the
authentication middleware, privacy resolution, and the cron driver.

Modelling conventions: Go strings and byte slices are lists of characters
(`Str`); Go maps are functions into `Option`; the filesystem, bcrypt
comparison, glob matching and cron schedule computation are explicit
parameters; times are integer seconds since the epoch.
-/

namespace Smallweb

/-- Go strings and byte slices, modelled as lists of characters. -/
abbrev Str := List Char

/-- Embed a Lean string literal into the model. -/
def str (s : String) : Str := s.data

/-- Go `path.Join` / `filepath.Join` of two cleaned, non-empty components. -/
def pathJoin (a b : Str) : Str := a ++ str "/" ++ b

/-- Go `strings.Split` with a single-character separator: the result is
always non-empty, and splitting a separator-free string yields one group. -/
def splitOnChar (sep : Char) : Str → List Str
  | [] => [[]]
  | c :: cs =>
    match splitOnChar sep cs with
    | [] => [[]]
    | g :: gs => if c = sep then [] :: g :: gs else (c :: g) :: gs

/-- Go `filepath.Ext`: the suffix of the final path element starting at its
final dot, empty when the final element contains no dot. -/
def fileExt (p : Str) : Str :=
  let base := (splitOnChar '/' p).getLastD []
  match splitOnChar '.' base with
  | [] => []
  | [_] => []
  | parts => '.' :: parts.getLastD []

/-- Go `filepath.Dir` for cleaned paths of at least two components and no
trailing slash: everything before the final component. -/
def fileDir (p : Str) : Str :=
  match splitOnChar '/' p with
  | [] => str "."
  | [_] => str "."
  | parts => List.intercalate (str "/") parts.dropLast

/-- The extension list the resolver tries, in source order. -/
def extensions : List Str := [str ".js", str ".ts", str ".jsx", str ".tsx"]

/-- `inferEntrypoint` from the source: three loops over `extensions`
(`rootDir/appAlias.<ext>`, then `rootDir/appAlias/mod.<ext>`, then
`rootDir/appAlias/appAlias.<ext>`) followed by the `rootDir/appAlias/index.html`
check, returning the first path for which the `exists` probe `ex` holds;
`none` models the "entrypoint not found" error. -/
def inferEntrypoint (ex : Str → Bool) (rootDir appAlias : Str) : Option Str :=
  ((extensions.map fun ext => pathJoin rootDir (appAlias ++ ext)).find? ex).or
  ((((extensions.map fun ext => pathJoin (pathJoin rootDir appAlias) (str "mod" ++ ext)).find? ex).or
  ((((extensions.map fun ext => pathJoin (pathJoin rootDir appAlias) (appAlias ++ ext)).find? ex).or
  (if ex (pathJoin (pathJoin rootDir appAlias) (str "index.html")) then
    some (pathJoin (pathJoin rootDir appAlias) (str "index.html"))
  else none)))))

/-- All entrypoint candidates, flattened in the order the source checks
them. -/
def entrypointCandidates (rootDir appAlias : Str) : List Str :=
  (extensions.map fun ext => pathJoin rootDir (appAlias ++ ext)) ++
  (extensions.map fun ext => pathJoin (pathJoin rootDir appAlias) (str "mod" ++ ext)) ++
  (extensions.map fun ext => pathJoin (pathJoin rootDir appAlias) (appAlias ++ ext)) ++
  [pathJoin (pathJoin rootDir appAlias) (str "index.html")]

/-- An environment: a finite map from keys to values, as a function. -/
def Env := Str → Option Str

/-- The empty environment (`make(map[string]string)`). -/
def emptyEnv : Env := fun _ => none

/-- The merge loop `for k, v := range dirEnv, env[k] = v`: keys of `over`
win over keys of `base`. -/
def envOverride (base over : Env) : Env := fun k => (over k).or (base k)

/-- The `.env` files the composer can see: for each path, `none` when no
file exists there, `some (.error e)` when `godotenv.Read` fails on it with
message `e`, and `some (.ok m)` when it parses to the map `m`. -/
abbrev EnvFS := Str → Option (Except Str Env)

/-- `loadEnv` from the source: an entrypoint with extension `.html` gets an
empty map; otherwise the root `.env` is read when present (a parse error
aborts), then the `.env` next to the entrypoint, when present and distinct
from the root one, is merged over it. -/
def loadEnv (fs : EnvFS) (root entrypoint : Str) : Except Str Env :=
  if fileExt entrypoint = str ".html" then .ok emptyEnv
  else
    let rootEnvPath := pathJoin root (str ".env")
    let rootStep : Except Str Env :=
      match fs rootEnvPath with
      | none => .ok emptyEnv
      | some (.error e) => .error e
      | some (.ok m) => .ok m
    match rootStep with
    | .error e => .error e
    | .ok env =>
      let envPath := pathJoin (fileDir entrypoint) (str ".env")
      if (fs envPath).isNone = true ∨ envPath = rootEnvPath then .ok env
      else
        match fs envPath with
        | none => .ok env
        | some (.error e) => .error e
        | some (.ok dirEnv) => .ok (envOverride env dirEnv)

/-- One entry of the inbound `http.Header` map: a canonical name and its
non-empty value slice, split as first value plus the remaining values
(`v[0]` is total on this shape). -/
structure HeaderEntry where
  name : Str
  firstValue : Str
  restValues : List Str
deriving DecidableEq

/-- An inbound Go request as `serializeRequest` sees it. `headers` lists
the entries of the `http.Header` map in the order a `range` loop yields
them; the Go language specification leaves that order unspecified, so the
embedding keeps it as request data. `bodyChunks` are the successive reads
of the body stream; `io.ReadAll` concatenates them. -/
structure GoRequest where
  method : Str
  host : Str
  path : Str
  rawQuery : Str
  tls : Bool
  headers : List HeaderEntry
  bodyChunks : List Str
deriving DecidableEq

/-- The JSON record sent to the evaluator for the request. -/
structure SerializedRequest where
  url : Str
  method : Str
  headers : List (Str × Str)
  body : Str
deriving DecidableEq

/-- `url.String()` after the source copies `req.Host` into the URL and sets
the scheme from `req.TLS`: `<scheme>://<host><path>`, with `?<query>`
appended when the raw query is non-empty. -/
def urlString (tls : Bool) (host path rawQuery : Str) : Str :=
  (if tls then str "https" else str "http") ++ str "://" ++ host ++ path ++
    (if rawQuery = [] then [] else '?' :: rawQuery)

/-- `serializeRequest` from the source: rebuild the URL, copy the method,
emit one `[name, firstValue]` pair per header-map entry in iteration
order, and read the whole body into memory. -/
def serializeRequest (r : GoRequest) : SerializedRequest :=
  { url := urlString r.tls r.host r.path r.rawQuery
    method := r.method
    headers := r.headers.map fun h => (h.name, h.firstValue)
    body := r.bodyChunks.flatten }

/-- The legacy handler's app lookup: `strings.Split(host, ".")[0]`. -/
def aliasOfHost (host : Str) : Str := (splitOnChar '.' host).headD []

/-- Go `strings.TrimSuffix`. -/
def trimSuffix (s suffix : Str) : Str :=
  if suffix.isSuffixOf s then s.take (s.length - suffix.length) else s

/-- The `up` command's app lookup:
`appname := strings.TrimSuffix(r.Host, "." + domain)`. -/
def appnameOfHost (host domain : Str) : Str := trimSuffix host ('.' :: domain)

/-- The JSON record the evaluator writes to the artifact file. -/
structure SerializedResponse where
  status : Int
  headers : List (Str × Str)
  body : Str
deriving DecidableEq

instance exceptDecEq {e a : Type} [DecidableEq e] [DecidableEq a] :
    DecidableEq (Except e a) := fun x y =>
  match x, y with
  | .error e1, .error e2 => decidable_of_iff (e1 = e2) (by simp)
  | .error _, .ok _ => .isFalse fun h => Except.noConfusion h
  | .ok _, .error _ => .isFalse fun h => Except.noConfusion h
  | .ok v1, .ok v2 => decidable_of_iff (v1 = v2) (by simp)

/-- The handler's view of one finished evaluator invocation: `runOk` is
`cmd.CombinedOutput()` returning no error (the child was spawned and
exited 0), `combined` is the captured stdout+stderr, and `artifact` is the
result of opening and JSON-decoding the response file, with `.error`
carrying the open or decode error's message. -/
structure EvalResult where
  runOk : Bool
  combined : Str
  artifact : Except Str SerializedResponse
deriving DecidableEq

/-- An HTTP response as the handler writes it (error responses carry the
plain-text body that `http.Error` writes; its fixed Content-Type header is
not modelled). -/
structure HttpResponse where
  status : Int
  headers : List (Str × Str)
  body : Str
deriving DecidableEq

/-- `w.Header().Set(k, v)`: replace the values stored under `k`, or append
the pair when `k` is absent. -/
def setHeader (hs : List (Str × Str)) (k v : Str) : List (Str × Str) :=
  if hs.any (fun p => p.1 == k) then hs.map (fun p => if p.1 == k then (k, v) else p)
  else hs ++ [(k, v)]

/-- The outbound header loop: `for header in res.Headers` do `Set`. -/
def setHeaders (hs : List (Str × Str)) : List (Str × Str) :=
  hs.foldl (fun acc p => setHeader acc p.1 p.2) []

/-- One access-log record, reduced to the fields the claims mention:
the logged response (absent on invocation failure) and the combined
child output stored under `logs`. -/
structure LogRecord where
  response : Option SerializedResponse
  logs : Str
deriving DecidableEq

/-- The tail of `Handler.ServeHTTP` after the evaluator child has run: on a
`CombinedOutput` error the handler logs a record without a response and
answers 500 with the combined output as body; otherwise it opens and
decodes the artifact — answering 500 with that error's message on failure,
without logging — and on success logs a record with the response, sets
each response header in order, and writes status and body. -/
def evaluatorRespond (res : EvalResult) : HttpResponse × Option LogRecord :=
  if res.runOk = false then
    ({ status := 500, headers := [], body := res.combined },
     some { response := none, logs := res.combined })
  else
    match res.artifact with
    | .error e => ({ status := 500, headers := [], body := e }, none)
    | .ok sr =>
      ({ status := sr.status, headers := setHeaders sr.headers, body := sr.body },
       some { response := some sr, logs := res.combined })

/-- A login session row. -/
structure Session where
  id : Str
  email : Str
  domain : Str
  createdAt : Int
  expiresAt : Int
deriving DecidableEq

/-- The session backing store, keyed by session id. -/
abbrev Store := Str → Option Session

/-- Modelled from the spec: `database.GetSession` (package `database`,
absent from the sources) is the backing record fetch by id — the spec
leaves the backing a plain per-record session store, so fetching is a
lookup. -/
def dbGetSession (store : Store) (sessionID : Str) : Option Session := store sessionID

/-- Modelled from the spec: `database.DeleteSession` removes the record
(record-level atomic delete). -/
def dbDeleteSession (store : Store) (sessionID : Str) : Store :=
  fun k => if k = sessionID then none else store k

/-- Modelled from the spec: `database.UpdateSession` replaces the record
stored under the session's own id (record-level atomic update). -/
def dbUpdateSession (store : Store) (s : Session) : Store :=
  fun k => if k = s.id then some s else store k

/-- `AuthMiddleware.GetSession`: fetch by id, then reject with "session not
found" when the stored domain differs from the presented one. No clock is
consulted here. -/
def getSession (store : Store) (sessionID domain : Str) : Except Str Session :=
  match dbGetSession store sessionID with
  | none => .error (str "failed to get session")
  | some s => if s.domain ≠ domain then .error (str "session not found") else .ok s

/-- `AuthMiddleware.ExtendSession`: re-fetch the row by id, set its expiry,
and store it back; `none` models the fetch failing. -/
def extendSession (store : Store) (sessionID : Str) (expiresAt : Int) : Option Store :=
  match dbGetSession store sessionID with
  | none => none
  | some s => some (dbUpdateSession store { s with expiresAt := expiresAt })

/-- Seven days in seconds. -/
def sevenDays : Int := 7 * 24 * 60 * 60

/-- Fourteen days in seconds. -/
def fourteenDays : Int := 14 * 24 * 60 * 60

/-- The observable outcome of the middleware on one request. `pass` is the
only outcome in which `next.ServeHTTP` runs; `extendAndReturn` is the
sliding-expiry branch, which extends the session and then returns without
calling the next handler; `redirectLogin p` is the 303 redirect to
`/_auth/login?redirect=p`; the two `unauthorized...` outcomes are 401s
carrying the `Basic` and `Bearer` challenge headers respectively. -/
inductive Outcome where
  | pass
  | unauthorizedBasic
  | unauthorizedBearer
  | unauthorized
  | serverError
  | seeOther (url : Str)
  | redirectLogin (redirectPath : Str)
  | extendAndReturn (newExpiry : Int)
deriving DecidableEq

/-- A token row: lookup key plus salted hash. -/
structure Token where
  publicId : Str
  hash : Str

/-- The ambient parameters of `AuthMiddleware.Wrap`: `parseToken` (defined
outside the sources; per the spec it splits a credential on its first dot),
the token table, bcrypt comparison (`true` when
`bcrypt.CompareHashAndPassword(hash, secret)` returns nil), the configured
account email, the clock, the random state generator, the OAuth2 authorize
URL builder, and the `/_auth/callback` handler — the callback's
provider exchange is outside the claims, so it stays an abstract function
of the store, host, and redirect query. -/
structure AuthEnv where
  parseToken : Str → Option (Str × Str)
  getToken : Str → Option Token
  bcryptOk : Str → Str → Bool
  email : Str
  now : Int
  genState : Option Str
  authCodeURL : Str → Str
  callbackH : Store → Str → Str → Outcome × Store

/-- The Basic branch of `Wrap`: the Basic username is parsed as
`<publicId>.<secret>`, the token row is fetched by the public id, and the
hash is compared against the secret; any failure yields a 401 with a Basic
challenge. The Basic password is never consulted. -/
def basicBranch (env : AuthEnv) (username : Str) : Outcome :=
  match env.parseToken username with
  | none => .unauthorizedBasic
  | some (pub, secret) =>
    match env.getToken pub with
    | none => .unauthorizedBasic
    | some t => if env.bcryptOk t.hash secret then .pass else .unauthorizedBasic

/-- The Bearer branch of `Wrap`, on the token following `Bearer `. -/
def bearerBranch (env : AuthEnv) (tok : Str) : Outcome :=
  match env.parseToken tok with
  | none => .unauthorizedBearer
  | some (pub, secret) =>
    match env.getToken pub with
    | none => .unauthorizedBearer
    | some t => if env.bcryptOk t.hash secret then .pass else .unauthorizedBearer

/-- The `/_auth/login` branch: generate a state (500 on failure), store the
oauth cookie, and 303 to the provider authorize URL. -/
def loginStep (env : AuthEnv) : Outcome :=
  match env.genState with
  | none => .serverError
  | some state => .seeOther (env.authCodeURL state)

/-- The `/_auth/logout` branch: 401 without a session cookie; otherwise
delete the session row, expire the cookie, and 303 to the `redirect` query
parameter, defaulting to the host root. -/
def logoutStep (store : Store) (cookie : Option Str) (queryRedirect host : Str) :
    Outcome × Store :=
  match cookie with
  | none => (.unauthorized, store)
  | some cv =>
    (.seeOther (if queryRedirect = [] then str "https://" ++ host ++ str "/"
      else queryRedirect),
     dbDeleteSession store cv)

/-- The session-cookie tail of `Wrap`: no cookie redirects to login; a
cookie that fails `GetSession` clears the cookie and redirects to login; an
expired session is deleted, the cookie cleared, and the request redirected
to login; an email mismatch is a 401; a session within seven days of
expiry is extended to fourteen days from now and the handler returns
without calling next; otherwise the request passes through. -/
def sessionBranch (env : AuthEnv) (store : Store) (cookie : Option Str)
    (host reqPath : Str) : Outcome × Store :=
  match cookie with
  | none => (.redirectLogin reqPath, store)
  | some cv =>
    match getSession store cv host with
    | .error _ => (.redirectLogin reqPath, store)
    | .ok session =>
      if env.now > session.expiresAt then
        (.redirectLogin reqPath, dbDeleteSession store cv)
      else if session.email ≠ env.email then (.unauthorized, store)
      else if env.now + sevenDays > session.expiresAt then
        match extendSession store cv (env.now + fourteenDays) with
        | none => (.serverError, store)
        | some newStore => (.extendAndReturn (env.now + fourteenDays), newStore)
      else (.pass, store)

/-- One request as `Wrap`'s handler sees it. `basicAuth` is the result of
`r.BasicAuth()` — the decoded username and password when a well-formed
Basic header is present; `authHeader` is the raw `Authorization` header
consulted by the Bearer check. -/
structure WrapRequest where
  basicAuth : Option (Str × Str)
  authHeader : Str
  path : Str
  host : Str
  queryRedirect : Str
  sessionCookie : Option Str

/-- `AuthMiddleware.Wrap`, branch for branch: Basic credentials first (the
password discarded at the binding), then Bearer, then the
no-session-login guard when the configured email is empty, then the three
`/_auth/...` endpoints, and finally the session-cookie path. -/
def wrapAuth (env : AuthEnv) (store : Store) (r : WrapRequest) : Outcome × Store :=
  match r.basicAuth with
  | some (username, _) => (basicBranch env username, store)
  | none =>
    if (str "Bearer ").isPrefixOf r.authHeader then
      (bearerBranch env (r.authHeader.drop 7), store)
    else if env.email = [] then (.unauthorizedBasic, store)
    else if r.path = str "/_auth/login" then (loginStep env, store)
    else if r.path = str "/_auth/callback" then env.callbackH store r.host r.queryRedirect
    else if r.path = str "/_auth/logout" then
      logoutStep store r.sessionCookie r.queryRedirect r.host
    else sessionBranch env store r.sessionCookie r.host r.path

/-- Per-app configuration, reduced to the privacy fields (`Private`,
`PublicRoutes`, `PrivateRoutes` in the source). -/
structure AppConfig where
  privateFlag : Bool
  publicRoutes : List Str
  privateRoutes : List Str

/-- The privacy loops from `NewCmdUp`: start from the private flag, clear
it on every public-route glob matching the path, then set it on every
private-route glob matching the path. `m pat p` models
`glob.MustCompile(pat).Match(p)`. -/
def effectivePrivacy (m : Str → Str → Bool) (cfg : AppConfig) (path : Str) : Bool :=
  let afterPublic :=
    cfg.publicRoutes.foldl (fun acc pat => if m pat path then false else acc) cfg.privateFlag
  cfg.privateRoutes.foldl (fun acc pat => if m pat path then true else acc) afterPublic

/-- The wrap decision:
`isPrivateRoute || strings.HasPrefix(r.URL.Path, "/_auth")`. -/
def authWrapped (m : Str → Str → Bool) (cfg : AppConfig) (path : Str) : Bool :=
  effectivePrivacy m cfg path || (str "/_auth").isPrefixOf path

/-- A parsed cron schedule, abstracted by its `Next` function on seconds. -/
structure Schedule where
  next : Int → Int

/-- One cron entry of an app's config: the `parser.Parse` result of its
schedule (`none` = parse error, the entry is skipped) and its args. -/
structure CronJob where
  schedule : Option Schedule
  args : List Str

/-- One app as the cron driver sees it. -/
structure CronApp where
  name : Str
  crons : List CronJob

/-- One evaluator command-mode invocation issued by the cron driver. -/
structure CronCommand where
  appName : Str
  args : List Str
deriving DecidableEq

/-- `time.Now().Truncate(time.Minute)` in seconds, for non-negative clocks. -/
def minuteFloor (now : Int) : Int := now / 60 * 60

/-- The firing test: the schedule parsed and
`sched.Next(rounded - 1s) == rounded`. -/
def fires (job : CronJob) (rounded : Int) : Bool :=
  match job.schedule with
  | none => false
  | some s => s.next (rounded - 1) == rounded

/-- The commands one app contributes on one tick: each firing entry runs
once, in config order. -/
def appTickCommands (a : CronApp) (rounded : Int) : List CronCommand :=
  (a.crons.filter fun j => fires j rounded).map fun j => { appName := a.name, args := j.args }

/-- One tick of the cron driver: `now` truncated to the minute, every app
enumerated (apps whose load failed are `none` and are skipped), and each
firing entry invoked once. The driver keeps no state across ticks. -/
def tickCommands (apps : List (Option CronApp)) (now : Int) : List CronCommand :=
  apps.flatMap fun oa =>
    match oa with
    | none => []
    | some a => appTickCommands a (minuteFloor now)

/-- A concrete invocation result: the child exited 0, wrote combined
output, but the artifact file does not decode. -/
def c1Eval : EvalResult :=
  { runOk := true
    combined := str "deno stack trace"
    artifact := .error (str "unexpected end of JSON input") }

/-- A concrete session that is already expired at time 200. -/
def c2Session : Session :=
  { id := str "sid1", email := str "user@example.test",
    domain := str "app.example.test", createdAt := 0, expiresAt := 100 }

/-- A store holding only `c2Session`. -/
def c2Store : Store := fun k => if k = str "sid1" then some c2Session else none

/-- A concrete middleware environment for witnesses: clock at 1000,
configured email matching `sessW`, all opaque collaborators trivial. -/
def envW : AuthEnv :=
  { parseToken := fun _ => none, getToken := fun _ => none,
    bcryptOk := fun _ _ => false, email := str "user@example.test",
    now := 1000, genState := none, authCodeURL := fun s => s,
    callbackH := fun st _ _ => (.unauthorized, st) }

/-- A concrete live session expiring 1000 seconds after `envW.now`. -/
def sessW : Session :=
  { id := str "sid1", email := str "user@example.test",
    domain := str "app.example.test", createdAt := 0, expiresAt := 2000 }

/-- A store holding only `sessW`. -/
def storeW : Store := fun k => if k = str "sid1" then some sessW else none

/-- A concrete app config with one private route. -/
def cfg4W : AppConfig :=
  { privateFlag := false, publicRoutes := [], privateRoutes := [str "/admin"] }

/-- A concrete glob matcher: literal equality of pattern and path. -/
def m4W : Str → Str → Bool := fun pat p => pat == p

/-- A concrete filesystem probe: only `www/blog/mod.ts` and
`www/blog/index.html` exist. -/
def ex5W : Str → Bool :=
  fun p => p == str "www/blog/mod.ts" || p == str "www/blog/index.html"

/-- Concrete root environment `A=1, B=2`. -/
def rootEnvW : Env :=
  fun k => if k = str "A" then some (str "1")
    else if k = str "B" then some (str "2") else none

/-- Concrete app-local environment `B=3, C=4`. -/
def appEnvW : Env :=
  fun k => if k = str "B" then some (str "3")
    else if k = str "C" then some (str "4") else none

/-- Concrete `.env` filesystem: a root file at `www/.env` and an app-local
file at `www/blog/.env`, both parsing successfully. -/
def fs6W : EnvFS := fun p =>
  if p = str "www/.env" then some (.ok rootEnvW)
  else if p = str "www/blog/.env" then some (.ok appEnvW)
  else none

/-- A concrete request whose header map iterates in the order B, A. -/
def c7Request : GoRequest :=
  { method := str "GET", host := str "blog.example.test", path := str "/hello",
    rawQuery := [], tls := false,
    headers := [{ name := str "B", firstValue := str "2", restValues := [] },
                { name := str "A", firstValue := str "1", restValues := [] }],
    bodyChunks := [str "ab", str "cd"] }

/-- The same two headers in the order they appeared on the wire. -/
def c7Encounter : List HeaderEntry :=
  [{ name := str "A", firstValue := str "1", restValues := [] },
   { name := str "B", firstValue := str "2", restValues := [] }]

/-- A concrete schedule whose `Next` always lands on the next second, so it
fires on every minute boundary. -/
def sched9W : Schedule := { next := fun t => t + 1 }

/-- A cron entry using `sched9W`. -/
def job9W : CronJob := { schedule := some sched9W, args := [str "refresh"] }

/-- An app owning the single entry `job9W`. -/
def app9W : CronApp := { name := str "blog", crons := [job9W] }

theorem splitOnChar_ne_nil (sep : Char) (l : Str) : splitOnChar sep l ≠ [] := by
  cases l with
  | nil => simp [splitOnChar]
  | cons c cs =>
    simp only [splitOnChar]
    split
    · simp
    · split <;> simp

theorem headD_splitOnChar (sep : Char) (l : Str) :
    (splitOnChar sep l).headD [] = l.takeWhile (fun c => !(c == sep)) := by
  induction l with
  | nil => simp [splitOnChar]
  | cons c cs ih =>
    simp only [splitOnChar]
    cases h : splitOnChar sep cs with
    | nil => exact absurd h (splitOnChar_ne_nil sep cs)
    | cons g gs =>
      rw [h] at ih
      simp only [List.headD_cons] at ih
      by_cases hc : c = sep
      · simp [hc, List.takeWhile_cons]
      · simp [hc, List.takeWhile_cons, ← ih]

theorem getSession_ok_iff (store : Store) (sessionID domain : Str) (s : Session) :
    getSession store sessionID domain = .ok s ↔
      store sessionID = some s ∧ s.domain = domain := by
  unfold getSession dbGetSession
  cases hs : store sessionID with
  | none => simp
  | some s0 =>
    by_cases hd : s0.domain = domain
    · simp only [hd, ne_eq, not_true_eq_false, if_false, Except.ok.injEq,
        Option.some.injEq]
      constructor
      · rintro rfl; exact ⟨rfl, hd⟩
      · rintro ⟨rfl, _⟩; rfl
    · simp only [ne_eq, hd, not_false_eq_true, if_true, Option.some.injEq]
      constructor
      · intro h; exact absurd h (by simp)
      · rintro ⟨rfl, hdom⟩; exact absurd hdom hd

theorem foldl_clearOnMatch (m : Str → Str → Bool) (path : Str) (l : List Str)
    (acc : Bool) :
    l.foldl (fun acc pat => if m pat path then false else acc) acc
      = (acc && !(l.any fun pat => m pat path)) := by
  induction l generalizing acc with
  | nil => simp
  | cons x xs ih =>
    simp only [List.foldl_cons, List.any_cons, ih]
    cases h : m x path <;> simp [h]

theorem foldl_setOnMatch (m : Str → Str → Bool) (path : Str) (l : List Str)
    (acc : Bool) :
    l.foldl (fun acc pat => if m pat path then true else acc) acc
      = (acc || (l.any fun pat => m pat path)) := by
  induction l generalizing acc with
  | nil => simp
  | cons x xs ih =>
    simp only [List.foldl_cons, List.any_cons, ih]
    cases h : m x path <;> simp [h]

/-- Claim C5: entrypoint resolution is a deterministic function of
(rootDir, alias) that tries, in strict order, `rootDir/alias.{js,ts,jsx,tsx}`,
then `rootDir/alias/mod.{js,ts,jsx,tsx}`, then
`rootDir/alias/alias.{js,ts,jsx,tsx}`, then `rootDir/alias/index.html`, and
returns the first existing candidate; when multiple candidates exist the
first-listed one is returned, and when none exists it reports not-found. -/
theorem c5_theorem (ex : Str → Bool) (rootDir appAlias : Str) :
    inferEntrypoint ex rootDir appAlias =
      (entrypointCandidates rootDir appAlias).find? ex ∧
    (inferEntrypoint ex rootDir appAlias = none ↔
      ∀ c ∈ entrypointCandidates rootDir appAlias, ex c = false) ∧
    (∀ c, inferEntrypoint ex rootDir appAlias = some c →
      ex c = true ∧ c ∈ entrypointCandidates rootDir appAlias) := by
  have hsing : ∀ d : Str, [d].find? ex = if ex d then some d else none := by
    intro d
    cases h : ex d with
    | true => rw [List.find?_cons_of_pos _ h]; simp
    | false => rw [List.find?_cons_of_neg _ (by simp [h]), List.find?_nil]; simp
  have hmain : inferEntrypoint ex rootDir appAlias
      = (entrypointCandidates rootDir appAlias).find? ex := by
    unfold inferEntrypoint entrypointCandidates
    rw [List.find?_append, List.find?_append, List.find?_append, hsing]
    simp [Option.or_assoc]
  refine ⟨hmain, ?_, ?_⟩
  · rw [hmain, List.find?_eq_none]
    simp [Bool.not_eq_true]
  · intro c hc
    rw [hmain] at hc
    exact ⟨List.find?_some hc, List.mem_of_find?_eq_some hc⟩

/-- Claim C5 witness: with only `www/blog/mod.ts` and `www/blog/index.html`
present, resolution picks `www/blog/mod.ts`. -/
theorem c5_witness :
    inferEntrypoint ex5W (str "www") (str "blog") = some (str "www/blog/mod.ts") := by
  rw [(c5_theorem ex5W (str "www") (str "blog")).1]
  decide

/-- Claim C6: for every key present in both the root `.env` and the
app-local `.env`, the composed environment maps the key to the app-local
value; keys present in only one file keep that file's value; absent `.env`
files are not errors; and an entrypoint with the `index.html` extension
yields an empty environment. -/
theorem c6_theorem (fs : EnvFS) (root entrypoint : Str) (rootMap appMap : Env) :
    (fileExt entrypoint = str ".html" → loadEnv fs root entrypoint = .ok emptyEnv) ∧
    (fileExt entrypoint ≠ str ".html" →
      fs (pathJoin root (str ".env")) = none →
      fs (pathJoin (fileDir entrypoint) (str ".env")) = none →
      loadEnv fs root entrypoint = .ok emptyEnv) ∧
    (fileExt entrypoint ≠ str ".html" →
      fs (pathJoin root (str ".env")) = some (.ok rootMap) →
      pathJoin (fileDir entrypoint) (str ".env") ≠ pathJoin root (str ".env") →
      fs (pathJoin (fileDir entrypoint) (str ".env")) = some (.ok appMap) →
      loadEnv fs root entrypoint = .ok (envOverride rootMap appMap) ∧
      (∀ k v, appMap k = some v → envOverride rootMap appMap k = some v) ∧
      (∀ k, appMap k = none → envOverride rootMap appMap k = rootMap k)) ∧
    (fileExt entrypoint ≠ str ".html" →
      fs (pathJoin root (str ".env")) = some (.ok rootMap) →
      fs (pathJoin (fileDir entrypoint) (str ".env")) = none →
      loadEnv fs root entrypoint = .ok rootMap) ∧
    (fileExt entrypoint ≠ str ".html" →
      fs (pathJoin root (str ".env")) = none →
      pathJoin (fileDir entrypoint) (str ".env") ≠ pathJoin root (str ".env") →
      fs (pathJoin (fileDir entrypoint) (str ".env")) = some (.ok appMap) →
      loadEnv fs root entrypoint = .ok (envOverride emptyEnv appMap) ∧
      ∀ k, envOverride emptyEnv appMap k = appMap k) := by
  refine ⟨?_, ?_, ?_, ?_, ?_⟩
  · intro h
    simp [loadEnv, h]
  · intro h h1 h2
    simp [loadEnv, h, h1, h2]
  · intro h h1 h2 h3
    refine ⟨?_, ?_, ?_⟩
    · simp [loadEnv, h, h1, h2, h3]
    · intro k v hk
      simp [envOverride, hk]
    · intro k hk
      simp [envOverride, hk]
  · intro h h1 h2
    simp [loadEnv, h, h1, h2]
  · intro h h1 h2 h3
    refine ⟨?_, ?_⟩
    · simp [loadEnv, h, h1, h2, h3]
    · intro k
      cases hk : appMap k <;> simp [envOverride, emptyEnv, hk]

/-- Claim C6 witness: with root `.env` `A=1,B=2` and app `.env` `B=3,C=4`
under entrypoint `www/blog/mod.ts`, composition succeeds and resolves
`A=1, B=3, C=4`. -/
theorem c6_witness :
    loadEnv fs6W (str "www") (str "www/blog/mod.ts") =
      .ok (envOverride rootEnvW appEnvW) ∧
    envOverride rootEnvW appEnvW (str "A") = some (str "1") ∧
    envOverride rootEnvW appEnvW (str "B") = some (str "3") ∧
    envOverride rootEnvW appEnvW (str "C") = some (str "4") :=
  ⟨((c6_theorem fs6W (str "www") (str "www/blog/mod.ts") rootEnvW appEnvW).2.2.1
      (by decide) rfl (by decide) rfl).1,
   rfl, rfl, rfl⟩

/-- Claim C7 counterexample: a request whose header map iterates in the
order B, A while the wire encounter order was A, B; serialization emits
B, A, so the emitted pairs do not follow encounter order. -/
theorem c7_counterexample :
    List.Perm c7Request.headers c7Encounter ∧
    (serializeRequest c7Request).headers ≠
      c7Encounter.map (fun h => (h.name, h.firstValue)) := by
  constructor
  · decide
  · decide

/-- Claim C7 (amended): serialization reads the whole body into memory,
reconstructs the url as scheme://host path query with scheme https iff the
transport is TLS, and emits exactly one pair per header name holding that
header's first value — in the header map's iteration order, which is a
permutation of the encounter order but not necessarily equal to it. -/
theorem c7_theorem (r : GoRequest) (encounter : List HeaderEntry)
    (hperm : List.Perm r.headers encounter)
    (hnodup : (r.headers.map HeaderEntry.name).Nodup) :
    (serializeRequest r).url =
      (if r.tls then str "https" else str "http") ++ str "://" ++ r.host ++ r.path ++
        (if r.rawQuery = [] then [] else '?' :: r.rawQuery) ∧
    (serializeRequest r).body = r.bodyChunks.flatten ∧
    (serializeRequest r).headers = r.headers.map (fun h => (h.name, h.firstValue)) ∧
    List.Perm (serializeRequest r).headers
      (encounter.map fun h => (h.name, h.firstValue)) ∧
    ((serializeRequest r).headers.map Prod.fst).Nodup := by
  refine ⟨rfl, rfl, rfl, hperm.map _, ?_⟩
  have hmap : (serializeRequest r).headers.map Prod.fst
      = r.headers.map HeaderEntry.name := by
    simp [serializeRequest, List.map_map]
  rw [hmap]
  exact hnodup

/-- Claim C7 witness: the concrete request serializes with the expected
url and body, and its emitted headers are a permutation of the
encounter-order pairs. -/
theorem c7_witness :
    (serializeRequest c7Request).url = str "http://blog.example.test/hello" ∧
    (serializeRequest c7Request).body = str "abcd" ∧
    List.Perm (serializeRequest c7Request).headers
      (c7Encounter.map fun h => (h.name, h.firstValue)) :=
  ⟨by rw [(c7_theorem c7Request c7Encounter (by decide) (by decide)).1]; decide,
   by rw [(c7_theorem c7Request c7Encounter (by decide) (by decide)).2.1]; decide,
   (c7_theorem c7Request c7Encounter (by decide) (by decide)).2.2.2.1⟩

/-- Claim C8 counterexample: for host `a.b.example.test` under domain
`example.test`, the `up` command's app name is `a.b` — the host with the
`.domain` suffix trimmed — which differs from the leftmost host label `a`
computed by the legacy handler. -/
theorem c8_counterexample :
    aliasOfHost (str "a.b.example.test") = str "a" ∧
    appnameOfHost (str "a.b.example.test") (str "example.test") = str "a.b" ∧
    appnameOfHost (str "a.b.example.test") (str "example.test") ≠
      aliasOfHost (str "a.b.example.test") := by
  refine ⟨by decide, by decide, by decide⟩

/-- Claim C8 (amended): the legacy handler derives the alias as the
leftmost label of the host (the full host when it contains no dot), while
the `up` command derives the app name by trimming the `.domain` suffix
from the host (the full host when that suffix is absent). -/
theorem c8_theorem (host domain pre : Str) :
    aliasOfHost host = host.takeWhile (fun c => !(c == '.')) ∧
    ('.' ∉ host → aliasOfHost host = host) ∧
    (host = pre ++ '.' :: domain → appnameOfHost host domain = pre) ∧
    (('.' :: domain).isSuffixOf host = false → appnameOfHost host domain = host) := by
  refine ⟨headD_splitOnChar _ _, ?_, ?_, ?_⟩
  · intro h
    unfold aliasOfHost
    rw [headD_splitOnChar]
    apply List.takeWhile_eq_self_iff.mpr
    intro c hc
    have hne : c ≠ '.' := fun e => h (e ▸ hc)
    simp [hne]
  · intro h
    subst h
    unfold appnameOfHost trimSuffix
    have hsuf : ('.' :: domain).isSuffixOf (pre ++ '.' :: domain) = true :=
      List.isSuffixOf_iff_suffix.mpr ⟨pre, rfl⟩
    rw [if_pos hsuf]
    have hlen : (pre ++ '.' :: domain).length - ('.' :: domain).length = pre.length := by
      simp [List.length_append]
    rw [hlen, List.take_left]
  · intro h
    unfold appnameOfHost trimSuffix
    simp [h]

/-- Claim C8 witness: for the single-label subdomain `blog.example.test`
the two derivations agree on `blog`, and a dotless host is its own alias. -/
theorem c8_witness :
    appnameOfHost (str "blog.example.test") (str "example.test") = str "blog" ∧
    aliasOfHost (str "localhost") = str "localhost" :=
  ⟨(c8_theorem (str "blog.example.test") (str "example.test") (str "blog")).2.2.1
      (by decide),
   (c8_theorem (str "localhost") [] []).2.1 (by decide)⟩

/-- Claim C1 counterexample: an invocation whose child exits 0 but whose
artifact file does not decode answers 500 with the decode error's message
as body, not the child's combined stdout+stderr. -/
theorem c1_counterexample :
    c1Eval.runOk = true ∧
    c1Eval.artifact = .error (str "unexpected end of JSON input") ∧
    (evaluatorRespond c1Eval).1.status = 500 ∧
    (evaluatorRespond c1Eval).1.body ≠ c1Eval.combined := by
  refine ⟨rfl, rfl, rfl, by decide⟩

/-- Claim C1 (amended): invocation succeeds only when the child exits 0
and the artifact decodes; on spawn failure or non-zero exit the handler
answers 500 with the combined stdout+stderr as body (logging a record
without a response); on an unopenable or undecodable artifact it answers
500 with that error's message as body, not the combined output; on
success the response is taken from the decoded artifact. -/
theorem c1_theorem (res : EvalResult) :
    (res.runOk = false →
      evaluatorRespond res =
        ({ status := 500, headers := [], body := res.combined },
         some { response := none, logs := res.combined })) ∧
    (∀ e, res.runOk = true → res.artifact = .error e →
      evaluatorRespond res = ({ status := 500, headers := [], body := e }, none)) ∧
    (∀ sr, res.runOk = true → res.artifact = .ok sr →
      evaluatorRespond res =
        ({ status := sr.status, headers := setHeaders sr.headers, body := sr.body },
         some { response := some sr, logs := res.combined })) := by
  refine ⟨?_, ?_, ?_⟩
  · intro h
    simp [evaluatorRespond, h]
  · intro e h ha
    simp [evaluatorRespond, h, ha]
  · intro sr h ha
    simp [evaluatorRespond, h, ha]

/-- Claim C1 witness: a failed run answers 500 with the combined output
as body and logs a record without a response. -/
theorem c1_witness :
    evaluatorRespond
        { runOk := false, combined := str "exit status 1",
          artifact := .error (str "open response.json: no such file") } =
      ({ status := 500, headers := [], body := str "exit status 1" },
       some { response := none, logs := str "exit status 1" }) :=
  (c1_theorem _).1 rfl

/-- Claim C2 counterexample: a stored session whose expiry has already
passed (expiresAt 100, clock 200) is still returned by `GetSession` when
the presented host matches its domain, instead of not-found. -/
theorem c2_counterexample :
    getSession c2Store (str "sid1") (str "app.example.test") = .ok c2Session ∧
    c2Session.expiresAt ≤ 200 := by
  refine ⟨by decide, by decide⟩

/-- Claim C2 (amended): `GetSession` returns the session iff the store
holds it under the id and its stored domain equals the presented host —
no clock is consulted; otherwise it reports not-found. The expiry check
happens separately in the middleware, which deletes a session whose
expiry lies in the past and redirects to login. -/
theorem c2_theorem (store : Store) (sessionID domain reqPath : Str)
    (s : Session) (env : AuthEnv) :
    (getSession store sessionID domain = .ok s ↔
      store sessionID = some s ∧ s.domain = domain) ∧
    ((∃ e, getSession store sessionID domain = .error e) ↔
      ¬ ∃ s2, store sessionID = some s2 ∧ s2.domain = domain) ∧
    (env.now > s.expiresAt → getSession store sessionID domain = .ok s →
      sessionBranch env store (some sessionID) domain reqPath =
        (.redirectLogin reqPath, dbDeleteSession store sessionID)) := by
  refine ⟨getSession_ok_iff store sessionID domain s, ?_, ?_⟩
  · constructor
    · rintro ⟨e, he⟩ ⟨s2, hs2, hd⟩
      rw [(getSession_ok_iff store sessionID domain s2).mpr ⟨hs2, hd⟩] at he
      exact Except.noConfusion he
    · intro h
      cases hg : getSession store sessionID domain with
      | error e => exact ⟨e, rfl⟩
      | ok s2 =>
        obtain ⟨hs2, hd⟩ := (getSession_ok_iff store sessionID domain s2).mp hg
        exact absurd ⟨s2, hs2, hd⟩ h
  · intro hexp hg
    simp only [sessionBranch, hg, if_pos hexp]

/-- Claim C2 witness: a live session with matching domain is returned, and
with the clock past its expiry the middleware deletes it and redirects to
login. -/
theorem c2_witness :
    getSession c2Store (str "sid1") (str "app.example.test") = .ok c2Session ∧
    sessionBranch envW c2Store (some (str "sid1")) (str "app.example.test")
        (str "/p") =
      (.redirectLogin (str "/p"), dbDeleteSession c2Store (str "sid1")) :=
  ⟨(c2_theorem c2Store (str "sid1") (str "app.example.test") (str "/p")
      c2Session envW).1.mpr (by decide),
   (c2_theorem c2Store (str "sid1") (str "app.example.test") (str "/p")
      c2Session envW).2.2 (by decide) (by decide)⟩

/-- Claim C3: for a request authenticated by a valid session cookie (the
session matches the presented host, is not expired, and carries the
configured email), when the expiry is less than seven days away the
middleware sets it to now plus fourteen days and returns without calling
the next handler; when it is seven days or more away the request passes
through unchanged. -/
theorem c3_theorem (env : AuthEnv) (store : Store) (cv host reqPath : Str)
    (session : Session)
    (hget : getSession store cv host = .ok session)
    (hvalid : ¬ env.now > session.expiresAt)
    (hemail : session.email = env.email) :
    (session.expiresAt - env.now < sevenDays →
      sessionBranch env store (some cv) host reqPath =
        (.extendAndReturn (env.now + fourteenDays),
         dbUpdateSession store { session with expiresAt := env.now + fourteenDays })) ∧
    (sevenDays ≤ session.expiresAt - env.now →
      sessionBranch env store (some cv) host reqPath = (.pass, store)) := by
  have hstore : store cv = some session :=
    ((getSession_ok_iff store cv host session).mp hget).1
  constructor
  · intro h7
    have hcond : env.now + sevenDays > session.expiresAt := by omega
    simp only [sessionBranch, hget, if_neg hvalid, hemail, ne_eq,
      not_true_eq_false, if_false, if_pos hcond, extendSession, dbGetSession, hstore]
  · intro h7
    have hcond : ¬ env.now + sevenDays > session.expiresAt := by omega
    simp only [sessionBranch, hget, if_neg hvalid, hemail, ne_eq,
      not_true_eq_false, if_false, if_neg hcond]

/-- Claim C3 witness: a session expiring 1000 seconds from now is extended
to fourteen days from now and the middleware returns without passing the
request on. -/
theorem c3_witness :
    sessionBranch envW storeW (some (str "sid1")) (str "app.example.test")
        (str "/p") =
      (.extendAndReturn (1000 + fourteenDays),
       dbUpdateSession storeW { sessW with expiresAt := 1000 + fourteenDays }) :=
  (c3_theorem envW storeW (str "sid1") (str "app.example.test") (str "/p") sessW
    (by decide) (by decide) (by decide)).1 (by decide)

/-- Claim C4: effective privacy starts at the config's private flag, is
cleared by each public-route glob matching the path, then set by each
private-route glob matching the path — so any matching private route
forces privacy — and every path under /_auth/ is auth-wrapped regardless
of the route lists. -/
theorem c4_theorem (m : Str → Str → Bool) (cfg : AppConfig) (path : Str) :
    effectivePrivacy m cfg path =
      ((cfg.privateRoutes.any fun pat => m pat path) ||
        (cfg.privateFlag && !(cfg.publicRoutes.any fun pat => m pat path))) ∧
    ((cfg.privateRoutes.any fun pat => m pat path) = true →
      effectivePrivacy m cfg path = true) ∧
    ((str "/_auth/").isPrefixOf path = true → authWrapped m cfg path = true) := by
  have hmain : effectivePrivacy m cfg path =
      ((cfg.privateRoutes.any fun pat => m pat path) ||
        (cfg.privateFlag && !(cfg.publicRoutes.any fun pat => m pat path))) := by
    unfold effectivePrivacy
    rw [foldl_clearOnMatch, foldl_setOnMatch, Bool.or_comm]
  refine ⟨hmain, ?_, ?_⟩
  · intro h
    rw [hmain, h, Bool.true_or]
  · intro h
    unfold authWrapped
    have h1 : (str "/_auth").isPrefixOf path = true := by
      rw [List.isPrefixOf_iff_prefix] at h ⊢
      exact List.IsPrefix.trans ⟨['/'], by decide⟩ h
    rw [h1, Bool.or_true]

/-- Claim C4 witness: with the private flag off, a matching private route
forces privacy, and a path under /_auth/ is auth-wrapped. -/
theorem c4_witness :
    effectivePrivacy m4W cfg4W (str "/admin") = true ∧
    authWrapped m4W cfg4W (str "/_auth/login") = true :=
  ⟨(c4_theorem m4W cfg4W (str "/admin")).2.1 (by decide),
   (c4_theorem m4W cfg4W (str "/_auth/login")).2.2 (by decide)⟩

/-- Claim C9: an entry fires at the minute-boundary tick `t` iff its
parsed schedule satisfies `next(t - 1s) = t`; a fired entry is invoked on
that tick; an entry never runs more often than it occurs in the config;
only currently-due entries ever run (no catch-up of missed minutes); and a
tick's commands depend only on the truncated minute. -/
theorem c9_theorem (apps : List (Option CronApp)) (now : Int) (a : CronApp)
    (j : CronJob) (s : Schedule) :
    (j.schedule = some s →
      (fires j (minuteFloor now) = true ↔
        s.next (minuteFloor now - 1) = minuteFloor now)) ∧
    (some a ∈ apps → j ∈ a.crons → fires j (minuteFloor now) = true →
      ({ appName := a.name, args := j.args } : CronCommand) ∈ tickCommands apps now) ∧
    (∀ c : CronCommand,
      (appTickCommands a (minuteFloor now)).count c ≤
        (a.crons.map fun j2 =>
          ({ appName := a.name, args := j2.args } : CronCommand)).count c) ∧
    (∀ c ∈ tickCommands apps now, ∃ a2 j2 s2, some a2 ∈ apps ∧ j2 ∈ a2.crons ∧
      c = { appName := a2.name, args := j2.args } ∧ j2.schedule = some s2 ∧
      s2.next (minuteFloor now - 1) = minuteFloor now) ∧
    (∀ t, minuteFloor t = minuteFloor now →
      tickCommands apps t = tickCommands apps now) := by
  refine ⟨?_, ?_, ?_, ?_, ?_⟩
  · intro hs
    simp [fires, hs]
  · intro ha hj hf
    unfold tickCommands
    refine List.mem_flatMap.mpr ⟨some a, ha, ?_⟩
    unfold appTickCommands
    exact List.mem_map.mpr ⟨j, List.mem_filter.mpr ⟨hj, hf⟩, rfl⟩
  · intro c
    unfold appTickCommands
    exact ((List.filter_sublist _).map _).count_le c
  · intro c hc
    unfold tickCommands at hc
    obtain ⟨oa, hoa, hmem⟩ := List.mem_flatMap.mp hc
    cases oa with
    | none => simp at hmem
    | some a2 =>
      unfold appTickCommands at hmem
      obtain ⟨j2, hj2, rfl⟩ := List.mem_map.mp hmem
      obtain ⟨hj2mem, hj2f⟩ := List.mem_filter.mp hj2
      cases hsched : j2.schedule with
      | none => rw [fires, hsched] at hj2f; exact absurd hj2f (by simp)
      | some s2 =>
        refine ⟨a2, j2, s2, hoa, hj2mem, rfl, hsched, ?_⟩
        rw [fires, hsched] at hj2f
        exact beq_iff_eq.mp hj2f
  · intro t ht
    unfold tickCommands
    rw [ht]

/-- Claim C9 witness: a schedule with `next(t) = t + 1` fires on the tick
at clock 130 (minute boundary 120) and its command is invoked. -/
theorem c9_witness :
    ({ appName := str "blog", args := [str "refresh"] } : CronCommand) ∈
      tickCommands [some app9W] 130 :=
  (c9_theorem [some app9W] 130 app9W job9W sched9W).2.1
    (by simp) (by simp [app9W]) (by decide)

/-- Claim C10: in the Basic branch of the middleware only the Basic
username is parsed and verified as the public-id dot secret credential;
the Basic password is never read, so two requests identical except for
the Basic password (and hence except for the raw Authorization header
encoding it) produce the same outcome and leave the same store. -/
theorem c10_theorem (env : AuthEnv) (store : Store) (u p1 p2 a1 a2 pth host qr : Str)
    (cookie : Option Str) :
    wrapAuth env store
      { basicAuth := some (u, p1), authHeader := a1, path := pth, host := host,
        queryRedirect := qr, sessionCookie := cookie } =
    wrapAuth env store
      { basicAuth := some (u, p2), authHeader := a2, path := pth, host := host,
        queryRedirect := qr, sessionCookie := cookie } := rfl

end Smallweb
